import Mathlib

/-
  Verification of the node orchestration logic of PicoCoin's `pico-cli.py`.

  The file shallowly embeds the handlers and loops of `src/pico-cli.py`
  (classes CLI, CoreServer, MiningServer and the `__main__` transaction
  construction).  The collaborator modules `core` and `miner` are not part
  of the sources; their operations are either kept abstract (a `CoreOps`
  record of functions the handlers are parametrized over, so every theorem
  holds for every possible behaviour of the collaborator) or, where a
  property depends on their semantics, modelled from the specification
  (each such definition carries a doc comment starting with
  `Modelled from the spec:`).

  Side effects (network sends and disk writes) are made explicit as a list
  of `Effect` values returned in program order; mutated object state is
  threaded explicitly.
-/

namespace PicoCoin

/-- Transaction action payload: the closed variant used by `pico-cli.py`
(`Invoice`, `Payment`, `Message` in `__main__`, `Reward` in
`MiningServer.serve_mining`). -/
inductive Act where
  | invoice (amount : Int)
  | payment (amount : Int)
  | message (text : String)
  | reward (amount : Int) (blockHash : String)
deriving DecidableEq, Repr

/-- A transaction record, with the field names of
`Transaction(from_adr, to_adr, act, hash, sign)` as constructed at
`pico-cli.py` lines 207 and 262. -/
structure Transaction where
  from_adr : Option String
  to_adr : String
  act : Act
  hash : Option String
  sign : Option String
deriving DecidableEq, Repr

/-- Proof-of-work record of a block (`block.pow.solver` is read at line 207). -/
structure Pow where
  nonce : Nat
  solver : String
deriving DecidableEq, Repr

/-- A block record: previous hash, ordered transactions, proof of work. -/
structure Block where
  prev : Option String
  trans : List Transaction
  pow : Pow
deriving DecidableEq, Repr

/-- A peer, identified by address and port (`Peer(ipv6, port)`). -/
structure Peer where
  ipv6 : String
  port : Nat
deriving DecidableEq, Repr

/-- The gossip network state that `pico-cli.py` serializes to `peers.json`:
a digest and the peer list. -/
structure Net where
  hash : Option String
  peers : List Peer
deriving DecidableEq, Repr

/-- Result of chain validation; `pico-cli.py` only distinguishes
`BlockCheck.OK` from everything else. -/
inductive BlockCheck where
  | ok
  | rejected
deriving DecidableEq, Repr

/-- A gossip wire message: a mapping that may carry the keys `hash`,
`peers`, `block`, `trans`; an absent key is `none`.  An inbound dispatcher
tests a key with Python truthiness (`data.get(key)`): a present record is
truthy, a present peer list is truthy iff nonempty. -/
structure WireMsg where
  hash : Option String := none
  peers : Option (List Peer) := none
  block : Option Block := none
  trans : Option Transaction := none
deriving DecidableEq, Repr

/-- An observable side effect of a handler, in program order: a network
broadcast (`net.send`), writing `peers.json`, or writing `blockchain.json`. -/
inductive Effect where
  | send (m : WireMsg)
  | persistPeers
  | persistChain
deriving DecidableEq, Repr

/-- The operations of the `core` collaborator's `Blockchain` that
`pico-cli.py` invokes and whose results gate its control flow.  They are
kept abstract: the chain state has an arbitrary type `Chain`, `check_block`
is pure, `add_block` returns whether the store changed together with the
new store state, `reward` is the current coinbase amount, `dict_hash` the
block digest. -/
structure CoreOps (Chain : Type) where
  check_block : Chain → Block → BlockCheck
  add_block : Chain → Block → Bool × Chain
  reward : Chain → Int
  dict_hash : Block → String

/-- The message `{trans: t}` (`pico-cli.py` lines 105 and 210). -/
def msg_trans (t : Transaction) : WireMsg := { trans := some t }

/-- The message `{block: b}` (`pico-cli.py` lines 131 and 211). -/
def msg_block (b : Block) : WireMsg := { block := some b }

/-- The message `{peers: ps}` (`pico-cli.py` line 124). -/
def msg_peers (ps : List Peer) : WireMsg := { peers := some ps }

/-- The message `net.to_dict()` sent at `pico-cli.py` line 110: the whole
serialized net state, carrying the `hash` and `peers` keys. -/
def net_to_dict (n : Net) : WireMsg := { hash := n.hash, peers := some n.peers }

/-- Python truthiness of `data.get('peers')`: present and nonempty. -/
def WireMsg.populated_peers (m : WireMsg) : Bool :=
  match m.peers with
  | some ps => !ps.isEmpty
  | none => false

/-- How many of the three routing keys `peers`, `block`, `trans` are
populated (truthy) in a message. -/
def WireMsg.key_count (m : WireMsg) : Nat :=
  (if m.populated_peers then 1 else 0) +
    (if m.block.isSome then 1 else 0) +
    (if m.trans.isSome then 1 else 0)

/-- Exactly one of the three routing keys is populated. -/
def WireMsg.exactly_one (m : WireMsg) : Bool := m.key_count == 1

/-- The messages broadcast by a list of effects, in order. -/
def sent_msgs (effs : List Effect) : List WireMsg :=
  effs.filterMap fun e =>
    match e with
    | Effect.send m => some m
    | _ => none

/-- Two peer lists denote the same peer set (mutual membership). -/
def peers_same_set (a b : List Peer) : Bool :=
  a.all (fun p => decide (p ∈ b)) && b.all (fun p => decide (p ∈ a))

/-- Modelled from the spec: `Net.update_peers` (`mergePeers`) of the absent
`core` module — "replaces the peer membership with `candidates` if and only
if the resulting set differs from the current one; returns whether a change
occurred". -/
def Net.update_peers (n : Net) (candidates : List Peer) : Bool × Net :=
  if peers_same_set n.peers candidates then (false, n)
  else (true, { n with peers := candidates })

/-- Modelled from the spec: `Net.update_peer` (`updateOwnPeer`) of the
absent `core` module — replaces the node's own advertised peer entry;
modelled as ensuring the entry is present in the peer set. -/
def Net.update_peer (n : Net) (p : Peer) : Net :=
  if p ∈ n.peers then n else { n with peers := n.peers ++ [p] }

/-- Modelled from the spec: `Blockchain.new_block` (`newBlockTemplate`) of
the absent `core` module — "produces an unmined block (empty transaction
list, nonce unset) whose `previousHash` is the current head"; the unset
nonce is modelled as `0` and the solver address is recorded in the proof. -/
def new_block (head : Option String) (solver : String) : Block :=
  { prev := head, trans := [], pow := { nonce := 0, solver := solver } }

/-- Modelled from the spec: `Blockchain.add_trans` (`addTransaction`) of
the absent `core` module — "appends to a block template's transaction list;
no validation is performed here". -/
def add_trans (b : Block) (t : Transaction) : Block :=
  { b with trans := b.trans ++ [t] }

/-- Modelled from the spec: `Blockchain.get_block_confirms`
(`confirmationDepth`) of the absent `core` module — "number of blocks mined
on top of the given block"; the depth of each block is abstract (`depth`),
and with no prior block there is nothing awaiting confirmation, so the
count is `0`. -/
def get_block_confirms (depth : Block → Nat) : Option Block → Nat
  | none => 0
  | some b => depth b

/-- `CoreServer.update_peers_hlr` (`pico-cli.py` lines 118-125): merge the
candidate peers; on a change, rebroadcast the received peer list and
persist `peers.json`; otherwise do nothing. -/
def update_peers_hlr (net : Net) (peers_dict : List Peer) : Net × List Effect :=
  match Net.update_peers net peers_dict with
  | (true, net') => (net', [Effect.send (msg_peers peers_dict), Effect.persistPeers])
  | (false, net') => (net', [])

/-- `CoreServer.add_block_hlr` (`pico-cli.py` lines 127-134): if validation
returns OK, relay the block; then append it unconditionally, persisting
`blockchain.json` exactly when the append reports a state change. -/
def add_block_hlr {Chain : Type} (ops : CoreOps Chain) (chain : Chain) (block : Block) :
    Chain × List Effect :=
  let e1 := if ops.check_block chain block = BlockCheck.ok
    then [Effect.send (msg_block block)] else []
  let r := ops.add_block chain block
  (r.2, e1 ++ (if r.1 then [Effect.persistChain] else []))

/-- The `peers` routing step of `CoreServer.serve_dispatch` (`pico-cli.py`
lines 142-144): `update_peers_hlr` runs when `data.get('peers')` is truthy,
i.e. present and nonempty. -/
def peers_dispatch (net : Net) (data : WireMsg) : Net × List Effect :=
  match data.peers with
  | some ps => if ps.isEmpty then (net, []) else update_peers_hlr net ps
  | none => (net, [])

/-- The `block` routing step of `CoreServer.serve_dispatch` (`pico-cli.py`
lines 142-144): `add_block_hlr` runs when `data.get('block')` is truthy,
i.e. the record is present. -/
def block_dispatch {Chain : Type} (ops : CoreOps Chain) (chain : Chain)
    (data : WireMsg) : Chain × List Effect :=
  match data.block with
  | some b => add_block_hlr ops chain b
  | none => (chain, [])

/-- `CoreServer.serve_dispatch` (`pico-cli.py` lines 136-144): route by
message key, `peers` first then `block` (the handler map's insertion
order), effects in program order. -/
def CoreServer.serve_dispatch {Chain : Type} (ops : CoreOps Chain) (chain : Chain)
    (net : Net) (data : WireMsg) : Chain × Net × List Effect :=
  let pr := peers_dispatch net data
  let br := block_dispatch ops chain data
  (br.1, pr.1, pr.2 ++ br.2)

/-- `MiningServer.cache_trans` (`pico-cli.py` lines 163-165): append the
transaction to the pending cache, unconditionally. -/
def cache_trans (cache : List Transaction) (t : Transaction) : List Transaction :=
  cache ++ [t]

/-- `MiningServer.add_trans_hlr` (`pico-cli.py` lines 184-186): decode the
received transaction and cache it. -/
def add_trans_hlr (cache : List Transaction) (t : Transaction) : List Transaction :=
  cache_trans cache t

/-- `MiningServer.serve_dispatch` (`pico-cli.py` lines 188-193): the core
dispatch, then the `trans` key routed to `add_trans_hlr` when truthy. -/
def MiningServer.serve_dispatch {Chain : Type} (ops : CoreOps Chain) (chain : Chain)
    (net : Net) (cache : List Transaction) (data : WireMsg) :
    Chain × Net × List Transaction × List Effect :=
  let r := CoreServer.serve_dispatch ops chain net data
  let cache' :=
    match data.trans with
    | some t => add_trans_hlr cache t
    | none => cache
  (r.1, r.2.1, cache', r.2.2)

/-- Template generation half of `MiningServer.update_block` (`pico-cli.py`
lines 176-182): a fresh template from the chain head, every cached
transaction added to it in cache order, and the cache cleared. -/
def update_block_gen (head : Option String) (pub : String) (cache : List Transaction) :
    Block × List Transaction :=
  (cache.foldl add_trans (new_block head pub), [])

/-- The guard of the wait loop of `MiningServer.update_block`
(`pico-cli.py` line 173): Python truthiness of
`self.chain.get_block_confirms(self.block)`. -/
def update_block_waits (depth : Block → Nat) (b : Option Block) : Bool :=
  get_block_confirms depth b != 0

/-- One observation of `MiningServer.update_block` (`pico-cli.py` lines
171-182): while the guard holds the coroutine keeps polling and produces no
template (`none`); once it does not, a fresh template is generated and the
cache cleared. -/
def update_block_step (depth : Block → Nat) (b : Option Block) (head : Option String)
    (pub : String) (cache : List Transaction) : Option (Block × List Transaction) :=
  if update_block_waits depth b then none else some (update_block_gen head pub cache)

/-- The reward transaction built at `pico-cli.py` lines 206-207:
`Transaction(from_adr=None, to_adr=block.pow.solver, act=Reward(reward, block_hash), hash=None, sign=None)`. -/
def mk_reward_trans (amount : Int) (blockHash : String) (solver : String) : Transaction :=
  { from_adr := none, to_adr := solver, act := Act.reward amount blockHash,
    hash := none, sign := none }

/-- The body of one `MiningServer.serve_mining` iteration after
`Miner.work()` returns the solved block `b` (`pico-cli.py` lines 204-214):
if validation returns OK, synthesize the reward transaction, cache it for
the next block, broadcast it and then the solved block; in either case
append the block unconditionally, persisting `blockchain.json` exactly when
the append reports a state change. -/
def serve_mining_step {Chain : Type} (ops : CoreOps Chain) (chain : Chain) (b : Block)
    (cache : List Transaction) : Chain × List Transaction × List Effect :=
  if ops.check_block chain b = BlockCheck.ok then
    let rt := mk_reward_trans (ops.reward chain) (ops.dict_hash b) b.pow.solver
    let r := ops.add_block chain b
    (r.2, cache_trans cache rt,
      [Effect.send (msg_trans rt), Effect.send (msg_block b)] ++
        (if r.1 then [Effect.persistChain] else []))
  else
    let r := ops.add_block chain b
    (r.2, cache, if r.1 then [Effect.persistChain] else [])

/-- `CLI.update_self_peer` (`pico-cli.py` lines 108-111): ensure the node's
own entry `Peer(net.ipv6, 10000)` is in the peer set, broadcast the
serialized net state, persist `peers.json`. -/
def update_self_peer (net : Net) (ipv6 : String) : Net × List Effect :=
  let net' := Net.update_peer net { ipv6 := ipv6, port := 10000 }
  (net', [Effect.send (net_to_dict net'), Effect.persistPeers])

/-- The action selection of `__main__` (`pico-cli.py` lines 256-260):
`ivc`, `pay`, `msg` map to `Invoice`, `Payment`, `Message`; integer parsing
of the amount argument is done by the caller. -/
def main_act (kind : String) (amount : Int) (text : String) : Option Act :=
  if kind = "ivc" then some (Act.invoice amount)
  else if kind = "pay" then some (Act.payment amount)
  else if kind = "msg" then some (Act.message text)
  else none

/-- The user transaction construction of `__main__` (`pico-cli.py` line
262): `Transaction(from_adr=usr.pub, to_adr=to, act=act, hash=None)`, the
signature defaulting to `None` until `CLI.make_trans` signs it. -/
def main_make_trans (pub : String) (toAdr : String) (act : Act) : Transaction :=
  { from_adr := some pub, to_adr := toAdr, act := act, hash := none, sign := none }

/-! ## Helper lemmas -/

/-- Folding `add_trans` over a list appends exactly that list to the
template's transactions. -/
theorem foldl_add_trans_trans (ts : List Transaction) (b : Block) :
    (ts.foldl add_trans b).trans = b.trans ++ ts := by
  induction ts generalizing b with
  | nil => simp
  | cons t ts ih => simp [add_trans, ih]

/-- Folding `add_trans` over a list does not change the previous hash. -/
theorem foldl_add_trans_prev (ts : List Transaction) (b : Block) :
    (ts.foldl add_trans b).prev = b.prev := by
  induction ts generalizing b with
  | nil => rfl
  | cons t ts ih => simp [add_trans, ih]

/-- `update_peers_hlr` either does nothing or rebroadcasts the received
peer list and persists, in that order. -/
theorem update_peers_hlr_effects (net : Net) (ps : List Peer) :
    (update_peers_hlr net ps).2 = [] ∨
      (update_peers_hlr net ps).2 = [Effect.send (msg_peers ps), Effect.persistPeers] := by
  unfold update_peers_hlr Net.update_peers
  by_cases h : peers_same_set net.peers ps = true
  · rw [if_pos h]; exact Or.inl rfl
  · rw [if_neg h]; exact Or.inr rfl

/-- Every effect of the `peers` routing step is a peer-list persist or a
rebroadcast of a nonempty peer list. -/
theorem peers_dispatch_effects (net : Net) (data : WireMsg) :
    ∀ e ∈ (peers_dispatch net data).2,
      e = Effect.persistPeers ∨ ∃ ps, ps ≠ [] ∧ e = Effect.send (msg_peers ps) := by
  intro e he
  unfold peers_dispatch at he
  split at he
  · rename_i ps hps
    split at he
    · simp at he
    · rename_i hemp
      have hne : ps ≠ [] := by
        intro hnil; rw [hnil] at hemp; exact hemp rfl
      rcases update_peers_hlr_effects net ps with h2 | h2 <;> rw [h2] at he
      · simp at he
      · simp at he
        rcases he with he | he
        · exact Or.inr ⟨ps, hne, he⟩
        · exact Or.inl he
  · simp at he

/-- `add_block_hlr` broadcasts the block relay iff validation returned OK,
and persists the chain iff the append reported a change. -/
theorem add_block_hlr_effects_mem {Chain : Type} (ops : CoreOps Chain) (chain : Chain)
    (b : Block) :
    (Effect.send (msg_block b) ∈ (add_block_hlr ops chain b).2 ↔
      ops.check_block chain b = BlockCheck.ok) ∧
    (Effect.persistChain ∈ (add_block_hlr ops chain b).2 ↔
      (ops.add_block chain b).1 = true) := by
  unfold add_block_hlr
  by_cases h1 : ops.check_block chain b = BlockCheck.ok <;>
    by_cases h2 : (ops.add_block chain b).1 = true <;>
      simp [h1, h2]

/-- Every effect of the `block` routing step is a chain persist or a block
relay. -/
theorem block_dispatch_effects {Chain : Type} (ops : CoreOps Chain) (chain : Chain)
    (data : WireMsg) :
    ∀ e ∈ (block_dispatch ops chain data).2,
      e = Effect.persistChain ∨ ∃ b, e = Effect.send (msg_block b) := by
  intro e he
  unfold block_dispatch at he
  split at he
  · rename_i b hb
    unfold add_block_hlr at he
    by_cases h1 : ops.check_block chain b = BlockCheck.ok <;>
      by_cases h2 : (ops.add_block chain b).1 = true <;>
        simp [h1, h2] at he
    · rcases he with he | he
      · exact Or.inr ⟨b, he⟩
      · exact Or.inl he
    · exact Or.inr ⟨b, he⟩
    · exact Or.inl he
  · simp at he

/-- A message in `sent_msgs` comes from a `send` effect of the list. -/
theorem sent_msgs_mem {effs : List Effect} {m : WireMsg} (h : m ∈ sent_msgs effs) :
    Effect.send m ∈ effs := by
  unfold sent_msgs at h
  rcases List.mem_filterMap.mp h with ⟨e, he, hm⟩
  cases e with
  | send m2 => simp at hm; rw [← hm]; exact he
  | persistPeers => simp at hm
  | persistChain => simp at hm

/-- `peers_same_set` decides extensional equality of the two peer sets. -/
theorem peers_same_set_iff (a b : List Peer) :
    peers_same_set a b = true ↔ ∀ p : Peer, p ∈ a ↔ p ∈ b := by
  unfold peers_same_set
  rw [Bool.and_eq_true, List.all_eq_true, List.all_eq_true]
  constructor
  · rintro ⟨h1, h2⟩ p
    exact ⟨fun hp => of_decide_eq_true (h1 p hp), fun hp => of_decide_eq_true (h2 p hp)⟩
  · intro h
    exact ⟨fun p hp => decide_eq_true ((h p).mp hp),
      fun p hp => decide_eq_true ((h p).mpr hp)⟩

/-- The peer set of `Net.update_peer` is never empty: the node's own entry
is in it. -/
theorem update_peer_ne_nil (n : Net) (p : Peer) : (Net.update_peer n p).peers ≠ [] := by
  unfold Net.update_peer
  by_cases h : p ∈ n.peers
  · rw [if_pos h]
    intro hnil
    rw [hnil] at h
    exact (List.not_mem_nil p) h
  · rw [if_neg h]
    simp

/-- Shared concrete sample block used by witnesses. -/
def blk0 : Block :=
  { prev := none, trans := [], pow := { nonce := 0, solver := "solverA" } }

/-- Shared concrete instantiation of the abstract core operations, used by
witnesses: the chain state is a counter, validation always accepts, the
append always reports a change. -/
def opsW : CoreOps Nat :=
  { check_block := fun _ _ => BlockCheck.ok
    add_block := fun c _ => (true, c + 1)
    reward := fun _ => 50
    dict_hash := fun _ => "beef" }

/-! ## Claims -/

/-- Claim C1: in the mining loop, when the chain store's validation accepts
the solved block, a `Reward` transaction is synthesized and cached for the
next block, the reward transaction and then the solved block are broadcast,
the solved block is appended locally (the new chain state is exactly the
result of `add_block`), and `blockchain.json` is persisted if and only if
the append reports a state change. -/
theorem C1_serve_mining_accepted {Chain : Type} (ops : CoreOps Chain) (chain : Chain)
    (b : Block) (cache : List Transaction)
    (h : ops.check_block chain b = BlockCheck.ok) :
    serve_mining_step ops chain b cache =
      ((ops.add_block chain b).2,
        cache ++ [mk_reward_trans (ops.reward chain) (ops.dict_hash b) b.pow.solver],
        [Effect.send (msg_trans
            (mk_reward_trans (ops.reward chain) (ops.dict_hash b) b.pow.solver)),
          Effect.send (msg_block b)] ++
          (if (ops.add_block chain b).1 then [Effect.persistChain] else [])) := by
  simp [serve_mining_step, h, cache_trans]

/-- Witness for C1, at `opsW` on chain state `0` with solved block `blk0`
and an empty cache. -/
theorem C1_witness :
    serve_mining_step opsW 0 blk0 [] =
      (1, [mk_reward_trans 50 "beef" "solverA"],
        [Effect.send (msg_trans (mk_reward_trans 50 "beef" "solverA")),
          Effect.send (msg_block blk0), Effect.persistChain]) := by
  rw [C1_serve_mining_accepted opsW 0 blk0 [] rfl]; rfl

/-- Claim C2 (code behaviour at the failing input): the wait loop of
`MiningServer.update_block` keeps polling, producing no fresh template,
exactly while `get_block_confirms` of the previously mined block is
nonzero — so with one confirmation on the prior block the node still
waits, while with zero confirmations (or no prior block) it proceeds
immediately. -/
theorem C2_guard_inverted :
    update_block_step (fun _ => 1) (some blk0) none "pub" [] = none ∧
    update_block_waits (fun _ => 1) (some blk0) = true ∧
    update_block_waits (fun _ => 0) (some blk0) = false ∧
    update_block_waits (fun _ => 0) none = false := by
  refine ⟨rfl, rfl, rfl, rfl⟩

/-- Claim C5: a freshly generated block template has the current head as
its previous hash, contains exactly the cached pending transactions in
cache order, and the pending cache is empty afterwards. -/
theorem C5_update_block_template (head : Option String) (pub : String)
    (cache : List Transaction) :
    (update_block_gen head pub cache).1.prev = head ∧
    (update_block_gen head pub cache).1.trans = cache ∧
    (update_block_gen head pub cache).2 = [] := by
  refine ⟨?_, ?_, rfl⟩
  · simp [update_block_gen, foldl_add_trans_prev, new_block]
  · simp [update_block_gen, foldl_add_trans_trans, new_block]

/-- Claim C10: caching a pending transaction is an unconditional append
with no duplicate check — two deliveries of the same transaction leave it
in the cache twice — and the next block template contains the cache
verbatim, duplicates included. -/
theorem C10_cache_unconditional (cache : List Transaction) (t : Transaction)
    (head : Option String) (pub : String) :
    cache_trans cache t = cache ++ [t] ∧
    add_trans_hlr cache t = cache ++ [t] ∧
    add_trans_hlr (add_trans_hlr cache t) t = cache ++ [t, t] ∧
    (update_block_gen head pub cache).1.trans = cache := by
  refine ⟨rfl, rfl, ?_, ?_⟩
  · simp [add_trans_hlr, cache_trans]
  · simp [update_block_gen, foldl_add_trans_trans, new_block]

/-- Claim C3: an inbound message carrying a `block` key makes the core
dispatch relay that block to the peers if and only if `check_block`
returned OK, and persist the chain to disk if and only if `add_block`
reported a state change. -/
theorem C3_block_dispatch {Chain : Type} (ops : CoreOps Chain) (chain : Chain)
    (net : Net) (data : WireMsg) (b : Block) :
    (Effect.send (msg_block b) ∈
        (CoreServer.serve_dispatch ops chain net { data with block := some b }).2.2 ↔
      ops.check_block chain b = BlockCheck.ok) ∧
    (Effect.persistChain ∈
        (CoreServer.serve_dispatch ops chain net { data with block := some b }).2.2 ↔
      (ops.add_block chain b).1 = true) := by
  have hd : (CoreServer.serve_dispatch ops chain net { data with block := some b }).2.2 =
      (peers_dispatch net data).2 ++ (add_block_hlr ops chain b).2 := rfl
  rw [hd]
  have hp := peers_dispatch_effects net data
  have ha := add_block_hlr_effects_mem ops chain b
  constructor
  · rw [List.mem_append]
    constructor
    · rintro (hmem | hmem)
      · rcases hp _ hmem with he | ⟨ps, _, he⟩ <;> simp [msg_peers, msg_block] at he
      · exact ha.1.mp hmem
    · intro h
      exact Or.inr (ha.1.mpr h)
  · rw [List.mem_append]
    constructor
    · rintro (hmem | hmem)
      · rcases hp _ hmem with he | ⟨ps, _, he⟩ <;> simp at he
      · exact ha.2.mp hmem
    · intro h
      exact Or.inr (ha.2.mpr h)

/-- Claim C4: the peer membership is replaced if and only if the candidate
set differs extensionally from the current one; the rebroadcast of the
received list and the persistence of `peers.json` happen exactly when the
membership changed, and nothing at all happens otherwise. -/
theorem C4_merge_peers (net : Net) (cands : List Peer) :
    ((Net.update_peers net cands).1 = true ↔
      ¬ ∀ p : Peer, p ∈ net.peers ↔ p ∈ cands) ∧
    ((update_peers_hlr net cands).1 =
      if peers_same_set net.peers cands then net else { net with peers := cands }) ∧
    ((update_peers_hlr net cands).2 =
      if peers_same_set net.peers cands then []
      else [Effect.send (msg_peers cands), Effect.persistPeers]) := by
  refine ⟨?_, ?_, ?_⟩
  · rw [← peers_same_set_iff]
    unfold Net.update_peers
    by_cases h : peers_same_set net.peers cands = true <;> simp [h]
  · unfold update_peers_hlr Net.update_peers
    by_cases h : peers_same_set net.peers cands = true
    · rw [if_pos h, if_pos h]
    · rw [if_neg h, if_neg h]
  · unfold update_peers_hlr Net.update_peers
    by_cases h : peers_same_set net.peers cands = true
    · rw [if_pos h, if_pos h]
    · rw [if_neg h, if_neg h]

/-- Claim C6: a user-submitted transaction carries the user's public key
as its sender, the user action selection never produces a `Reward`, and
the reward transaction synthesized after solving a block has no sender and
no signature, its action is `Reward(currentReward, solvedBlockHash)`, and
its recipient is the solved block's solver address — it is exactly what is
cached by the mining loop. -/
theorem C6_sender_invariant {Chain : Type} (ops : CoreOps Chain) (chain : Chain)
    (b : Block) (cache : List Transaction) (pub toA : String) (act : Act)
    (r : Int) (hsh solver : String) (kind : String) (amt : Int) (txt : String)
    (h : ops.check_block chain b = BlockCheck.ok) :
    (main_make_trans pub toA act).from_adr = some pub ∧
    mk_reward_trans r hsh solver =
      { from_adr := none, to_adr := solver, act := Act.reward r hsh,
        hash := none, sign := none } ∧
    main_act kind amt txt ≠ some (Act.reward r hsh) ∧
    (serve_mining_step ops chain b cache).2.1 =
      cache ++ [mk_reward_trans (ops.reward chain) (ops.dict_hash b) b.pow.solver] := by
  refine ⟨rfl, rfl, ?_, ?_⟩
  · unfold main_act
    by_cases h1 : kind = "ivc" <;> by_cases h2 : kind = "pay" <;>
      by_cases h3 : kind = "msg" <;> simp [h1, h2, h3]
  · simp [serve_mining_step, h, cache_trans]

/-- Witness for C6, at `opsW` on chain state `0` with solved block `blk0`. -/
theorem C6_witness :
    (main_make_trans "pk" "adr" (Act.payment 1)).from_adr = some "pk" ∧
    mk_reward_trans 50 "beef" "solverA" =
      { from_adr := none, to_adr := "solverA", act := Act.reward 50 "beef",
        hash := none, sign := none } ∧
    main_act "ivc" 1 "x" ≠ some (Act.reward 50 "beef") ∧
    (serve_mining_step opsW 0 blk0 []).2.1 =
      [] ++ [mk_reward_trans (opsW.reward 0) (opsW.dict_hash blk0) blk0.pow.solver] :=
  C6_sender_invariant opsW 0 blk0 [] "pk" "adr" (Act.payment 1) 50 "beef" "solverA"
    "ivc" 1 "x" rfl

/-- Claim C7: an inbound message carrying a `trans` key makes a mining
node append the decoded transaction to its pending cache, while the
non-mining core dispatch neither reads the `trans` key nor ever sends a
message populating it. -/
theorem C7_trans_dispatch {Chain : Type} (ops : CoreOps Chain) (chain : Chain)
    (net : Net) (cache : List Transaction) (data : WireMsg) (t : Transaction) :
    (MiningServer.serve_dispatch ops chain net cache
        { data with trans := some t }).2.2.1 = cache ++ [t] ∧
    CoreServer.serve_dispatch ops chain net { data with trans := some t } =
      CoreServer.serve_dispatch ops chain net { data with trans := none } ∧
    ((sent_msgs (CoreServer.serve_dispatch ops chain net data).2.2).all
        (fun m => m.trans == none)) = true := by
  refine ⟨rfl, rfl, ?_⟩
  rw [List.all_eq_true]
  intro m hm
  have hd : (CoreServer.serve_dispatch ops chain net data).2.2 =
      (peers_dispatch net data).2 ++ (block_dispatch ops chain data).2 := rfl
  rw [hd] at hm
  have hsend := sent_msgs_mem hm
  rw [List.mem_append] at hsend
  rcases hsend with hs | hs
  · rcases peers_dispatch_effects net data _ hs with he | ⟨ps, _, he⟩
    · simp at he
    · simp only [Effect.send.injEq] at he
      rw [he]; rfl
  · rcases block_dispatch_effects ops chain data _ hs with he | ⟨b, he⟩
    · simp at he
    · simp only [Effect.send.injEq] at he
      rw [he]; rfl

/-- Claim C8: every message the node broadcasts populates exactly one of
the three routing keys `peers`, `block`, `trans`: the user transaction
submission, the startup self-peer announcement, every message sent by the
inbound dispatch (peer-list rebroadcast and block relay), and the two
broadcasts after solving a block. -/
theorem C8_one_key {Chain : Type} (ops : CoreOps Chain) (chain : Chain) (net : Net)
    (cache : List Transaction) (data : WireMsg) (t : Transaction) (b : Block)
    (ip : String) :
    (msg_trans t).exactly_one = true ∧
    ((sent_msgs (update_self_peer net ip).2).all WireMsg.exactly_one) = true ∧
    ((sent_msgs (MiningServer.serve_dispatch ops chain net cache data).2.2.2).all
        WireMsg.exactly_one) = true ∧
    ((sent_msgs (serve_mining_step ops chain b cache).2.2).all
        WireMsg.exactly_one) = true := by
  refine ⟨rfl, ?_, ?_, ?_⟩
  · have hne := update_peer_ne_nil net { ipv6 := ip, port := 10000 }
    have hemp : (Net.update_peer net { ipv6 := ip, port := 10000 }).peers.isEmpty = false := by
      cases hc : (Net.update_peer net { ipv6 := ip, port := 10000 }).peers with
      | nil => exact absurd hc hne
      | cons x xs => rfl
    simp [update_self_peer, sent_msgs, net_to_dict, WireMsg.exactly_one,
      WireMsg.key_count, WireMsg.populated_peers, hemp]
  · rw [List.all_eq_true]
    intro m hm
    have hd : (MiningServer.serve_dispatch ops chain net cache data).2.2.2 =
        (peers_dispatch net data).2 ++ (block_dispatch ops chain data).2 := rfl
    rw [hd] at hm
    have hsend := sent_msgs_mem hm
    rw [List.mem_append] at hsend
    rcases hsend with hs | hs
    · rcases peers_dispatch_effects net data _ hs with he | ⟨ps, hne, he⟩
      · simp at he
      · simp only [Effect.send.injEq] at he
        have hemp : ps.isEmpty = false := by
          cases hc : ps with
          | nil => exact absurd hc hne
          | cons x xs => rfl
        rw [he]
        simp [msg_peers, WireMsg.exactly_one, WireMsg.key_count,
          WireMsg.populated_peers, hemp]
    · rcases block_dispatch_effects ops chain data _ hs with he | ⟨b2, he⟩
      · simp at he
      · simp only [Effect.send.injEq] at he
        rw [he]
        rfl
  · by_cases h1 : ops.check_block chain b = BlockCheck.ok <;>
      by_cases h2 : (ops.add_block chain b).1 = true <;>
        simp [serve_mining_step, h1, h2, sent_msgs, WireMsg.exactly_one,
          WireMsg.key_count, WireMsg.populated_peers, msg_trans, msg_block]

/-- Claim C9: for a block received from a peer as well as for a locally
solved block, the resulting chain state is exactly the result of
`add_block` — the append is not gated on the validation result, which
gates only relaying, reward synthesis and broadcasting — and persistence
tracks exactly the append's reported state change. -/
theorem C9_append_unconditional {Chain : Type} (ops : CoreOps Chain) (chain : Chain)
    (b : Block) (cache : List Transaction) :
    (add_block_hlr ops chain b).1 = (ops.add_block chain b).2 ∧
    (Effect.persistChain ∈ (add_block_hlr ops chain b).2 ↔
      (ops.add_block chain b).1 = true) ∧
    (serve_mining_step ops chain b cache).1 = (ops.add_block chain b).2 ∧
    (Effect.persistChain ∈ (serve_mining_step ops chain b cache).2.2 ↔
      (ops.add_block chain b).1 = true) := by
  refine ⟨rfl, (add_block_hlr_effects_mem ops chain b).2, ?_, ?_⟩
  · by_cases h1 : ops.check_block chain b = BlockCheck.ok <;>
      simp [serve_mining_step, h1]
  · by_cases h1 : ops.check_block chain b = BlockCheck.ok <;>
      by_cases h2 : (ops.add_block chain b).1 = true <;>
        simp [serve_mining_step, h1, h2]

end PicoCoin
